import Mathlib

/-!
Verification of the auto-optimizer subsystem of `drf_tweaks`
(`drf_tweaks/optimizator.py`), a recursive walker over a serializer's declared
fields that derives two sets of relationship paths: the select-related set
("join set") and the prefetch-related set ("batch set").

The embedding below is a shallow translation of `drf_tweaks/optimizator.py`:
* Django model attribute descriptors (`related_descriptors.*`) become
  `DescriptorKind` / `ModelField`; a model class is its attribute dictionary
  (`getattr`) plus `_meta.get_fields()`.
* DRF serializer fields become the inductive `Sfield`, whose constructors are
  exactly the cases distinguished by `BaseOptimizer.get_optimizer`
  (`type(field) == ...` and `isinstance` tests).
* Python sets of path strings become `Finset String`; the `only_fields` /
  `include_fields` filters, which may be `None`, become `Option (List String)`
  (only membership and the per-name narrowing are ever used on them).
* The one runtime exception the walker can raise
  (`field_name not in self.include_fields` with `include_fields = None` raises
  `TypeError`) is modelled by `Except Unit`: `.error ()` is a raised exception.
* `filter_fields` and the serializer method `check_if_needs_serialization`
  live in `drf_tweaks/serializers.py`, which is not among the sources:
  `filter_fields` is modelled from the spec, and the per-serializer
  `check_if_needs_serialization` method is an oracle carried by the
  serializer (`NeedsOracle`), absent when the serializer does not expose the
  method (`hasattr` test in `BaseOptimizer.check_if_needs_serialization`).
-/

/-- Classification of a model-class attribute, mirroring the
`django.db.models.fields.related_descriptors` classes tested by
`check_if_related_object` / `check_if_prefetch_object` / `check_in_fields`,
plus `property` (tested first in `check_in_fields`) and a catch-all for any
other attribute (for which `check_in_fields`'s local `rel` stays `None`). -/
inductive DescriptorKind : Type where
  | forwardManyToOne   -- related_descriptors.ForwardManyToOneDescriptor
  | reverseOneToOne    -- related_descriptors.ReverseOneToOneDescriptor
  | manyToMany         -- related_descriptors.ManyToManyDescriptor
  | reverseManyToOne   -- related_descriptors.ReverseManyToOneDescriptor
  | propertyAttr       -- a python `property`
  | plainAttr          -- any other attribute
deriving DecidableEq, Repr

/-- A model-class attribute: its descriptor classification together with the
identity of the underlying relation object (`model_field.related`,
`model_field.field` or `model_field.rel`, depending on the descriptor kind),
which `check_in_fields` compares against `_meta.get_fields()`. -/
structure ModelField : Type where
  kind : DescriptorKind
  rel : String
deriving DecidableEq, Repr

/-- A Django model class: the attributes reachable by `getattr` and the
relation objects listed by `model._meta.get_fields()`. -/
structure ModelClass : Type where
  attrs : List (String × ModelField)
  metaFields : List String
deriving DecidableEq, Repr

/-- Source: `getattr(model_class, name, None)`. -/
def getattrModel (mc : ModelClass) (n : String) : Option ModelField :=
  mc.attrs.lookup n

/-- Source: `BaseOptimizer.check_if_related_object`: the attribute is a
`ForwardManyToOneDescriptor` or a `ReverseOneToOneDescriptor`. -/
def check_if_related_object (mf : ModelField) : Bool :=
  mf.kind == .forwardManyToOne || mf.kind == .reverseOneToOne

/-- Source: `BaseOptimizer.check_if_prefetch_object`: the attribute is a
`ManyToManyDescriptor` or a `ReverseManyToOneDescriptor`. -/
def check_if_prefetch_object (mf : ModelField) : Bool :=
  mf.kind == .manyToMany || mf.kind == .reverseManyToOne

/-- Source: `BaseOptimizer.check_in_fields`: a `property` is rejected outright;
otherwise the underlying relation object (`related` / `field` / `rel`) must be
listed in `model_class._meta.get_fields()`.  For any other attribute the local
`rel` stays `None`, and `None` is never an element of `_meta.get_fields()`
(which yields field objects), so the membership test is false. -/
def check_in_fields (mc : ModelClass) (mf : ModelField) : Bool :=
  match mf.kind with
  | .propertyAttr => false
  | .reverseOneToOne => mc.metaFields.contains mf.rel
  | .manyToMany => mc.metaFields.contains mf.rel
  | .forwardManyToOne => mc.metaFields.contains mf.rel
  | .reverseManyToOne => mc.metaFields.contains mf.rel
  | .plainAttr => false

/-- Source: `BaseOptimizer.clean_fields`: `select_set - prefetch_set`. -/
def clean_fields (prefetch_set select_set : Finset String) : Finset String :=
  select_set \ prefetch_set

/-- Modelled from the spec: `filter_fields` is defined in
`drf_tweaks/serializers.py`, which is not among the sources.  Per the spec it
keeps the entries whose first `__`-separated path segment equals the field
name, with that segment and its separator stripped (`a__b` under field `a`
contributes `b`). -/
def filter_fields (field_name : String) (fields_to_serialize : List String) :
    List String :=
  fields_to_serialize.filterMap (fun e =>
    match e.splitOn "__" with
    | [] => none
    | seg :: rest =>
      if seg = field_name then some (String.intercalate "__" rest) else none)

/-- Source: `BaseOptimizer.filter_field_name`: `None` stays `None`, otherwise defer to
`filter_fields`. -/
def filter_field_name (field_name : String)
    (fields_to_serialize : Option (List String)) : Option (List String) :=
  match fields_to_serialize with
  | some l => some (filter_fields field_name l)
  | none => none

/-- The type of a serializer's `check_if_needs_serialization` method
(defined in `drf_tweaks/serializers.py`, not among the sources): it receives
the field name, the optimizer's `only_fields` and `include_fields`, and the
on-demand field names, and answers whether the field is to be serialized. -/
def NeedsOracle : Type :=
  String → Option (List String) → Option (List String) → List String → Bool

mutual

/-- DRF serializer fields, one constructor per case distinguished by
`BaseOptimizer.get_optimizer` and `get_field_to_handle`:
* `methodField`: `type(field) == SerializerMethodField`;
* `pkRelated`: `type(field) == PrimaryKeyRelatedField`;
* `asymetric`: `type(field) == AsymetricRelatedField`; `target` is the
  serializer produced by `field.serializer_class()`;
* `listSerializer`: `isinstance(field, ListSerializer)`; `child` is
  `field.child`;
* `nestedSerializer`: `isinstance(field, Serializer)`; the field is itself a
  serializer, recorded in `ser`;
* `manyRelated` / `manyRelatedNoSer`: `isinstance(field, ManyRelatedField)`,
  with or without `field.child_relation.serializer_class`;
* `plainField`: any other field (not in `related_field_class`).
Exact type `RelatedField` is not represented: it is an abstract DRF class that
is never instantiated directly.  Each constructor carries `field.source`;
constructors whose leaf optimizer resolves `field.field_name` also carry it. -/
inductive Sfield : Type where
  | methodField (fieldName source : String)
  | pkRelated (fieldName source : String)
  | asymetric (fieldName source : String) (target : Serializer)
  | listSerializer (source : String) (child : Serializer)
  | nestedSerializer (source : String) (ser : Serializer)
  | manyRelated (source : String) (childSer : Serializer)
  | manyRelatedNoSer (source : String)
  | plainField (fieldName source : String)

/-- The field dictionary `serializer.fields` as an association list (a bespoke
list type participating in the mutual inductive, giving the recursion below a
direct size measure). -/
inductive FieldList : Type where
  | nil
  | cons (name : String) (f : Sfield) (rest : FieldList)

/-- A DRF serializer:
* `meta`: `none` when the serializer has no `Meta` attribute, `some none` when
  `Meta` has no `model`, `some (some mc)` when `Meta.model = mc`;
* `sfields`: the declared fields (`serializer.fields`);
* `onDemand`: `some l` when the serializer has a `get_on_demand_fields`
  method returning `l`, `none` otherwise (`getattr(serializer,
  "get_on_demand_fields", set)()` then yields the empty set);
* `checkNeeds`: the serializer's `check_if_needs_serialization` method when
  it has one (`hasattr` test). -/
inductive Serializer : Type where
  | mk (meta : Option (Option ModelClass))
       (sfields : FieldList)
       (onDemand : Option (List String))
       (checkNeeds : Option NeedsOracle)

end

def Serializer.meta : Serializer → Option (Option ModelClass)
  | .mk m _ _ _ => m

def Serializer.sfields : Serializer → FieldList
  | .mk _ fs _ _ => fs

def Serializer.onDemand : Serializer → Option (List String)
  | .mk _ _ od _ => od

def Serializer.checkNeeds : Serializer → Option NeedsOracle
  | .mk _ _ _ cn => cn

/-- Source: `field.source` of each field. -/
def Sfield.sourceOf : Sfield → String
  | .methodField _ src => src
  | .pkRelated _ src => src
  | .asymetric _ src _ => src
  | .listSerializer src _ => src
  | .nestedSerializer src _ => src
  | .manyRelated src _ => src
  | .manyRelatedNoSer src => src
  | .plainField _ src => src

/-- Source: `"." in field.source`: the source string contains a dot character. -/
def hasDot (s : String) : Bool :=
  s.data.contains '.'

/-- Source: `field.source.split(".", 1)[0]`: the part of the source before the first
dot (the whole string when there is no dot). -/
def firstSegment (s : String) : String :=
  String.mk (s.data.takeWhile (fun c => c != '.'))

/-- Source: `isinstance(field, BaseOptimizer.related_field_class)` where
`related_field_class = (RelatedField, BaseSerializer, ManyRelatedField,
SerializerMethodField)`: every represented field kind except plain
(non-relational) fields is an instance of one of these classes. -/
def isRelatedFieldClass : Sfield → Bool
  | .plainField _ _ => false
  | _ => true

/-- Source: `isinstance(field, AsymetricRelatedField)`. -/
def isAsymetric : Sfield → Bool
  | .asymetric _ _ _ => true
  | _ => false

/-- Source: `BaseOptimizer.check_if_needs_serialization`: when the serializer exposes
the method, call it with the field name, the optimizer's filters and the
on-demand fields; otherwise return `False`. -/
def check_if_needs_serialization (only inc : Option (List String))
    (cn : Option NeedsOracle) (n : String) (od : List String) : Bool :=
  match cn with
  | some g => g n only inc od
  | none => false

/-- Outcome of one iteration of `BaseOptimizer.get_field_to_handle` for a
single field: skipped (`continue`), yielded, or a raised `TypeError` (the
membership test `field_name not in self.include_fields` with
`include_fields = None`). -/
inductive FieldDecision : Type where
  | skip
  | keep
  | raiseTypeError
deriving DecidableEq, Repr

/-- The per-field tests of `BaseOptimizer.get_field_to_handle`, in source
order: the needs-serialization check, the
`isinstance(field, related_field_class) or "." in field.source` check, and
the asymmetric-field check `isinstance(field, AsymetricRelatedField) and
(field_name not in self.include_fields)` (which raises `TypeError` when
`include_fields` is `None`). -/
def fieldDecision (only inc : Option (List String)) (cn : Option NeedsOracle)
    (od : List String) (n : String) (f : Sfield) : FieldDecision :=
  if ! check_if_needs_serialization only inc cn n od then .skip
  else if ! (isRelatedFieldClass f || hasDot f.sourceOf) then .skip
  else if isAsymetric f then
    match inc with
    | none => .raiseTypeError
    | some incl => if incl.contains n then .keep else .skip
  else .keep

/-- The fields yielded by `BaseOptimizer.get_field_to_handle` over a field
list; `.error ()` when consuming the generator raises `TypeError`. -/
def handleFields (only inc : Option (List String)) (cn : Option NeedsOracle)
    (od : List String) : FieldList → Except Unit (List (String × Sfield))
  | .nil => .ok []
  | .cons n f rest =>
    match fieldDecision only inc cn od n f with
    | .skip => handleFields only inc cn od rest
    | .raiseTypeError => .error ()
    | .keep =>
      match handleFields only inc cn od rest with
      | .error e => .error e
      | .ok r => .ok ((n, f) :: r)

/-- Source: `BaseOptimizer.get_field_to_handle(serializer, on_demand_fields)`, fully
consumed: the list of yielded `(field_name, field)` pairs, or `.error ()` when
iteration raises `TypeError`. -/
def get_field_to_handle (only inc : Option (List String)) (ser : Serializer)
    (od : List String) : Except Unit (List (String × Sfield)) :=
  handleFields only inc ser.checkNeeds od ser.sfields

/-- The shared leaf optimization `SimpleRelationAutoOptimizer.optimize` (run
by its subclasses `SourceSerializerAutoOptimizer`,
`SerializerMethodFieldAutoOptimizer`, `PrimaryKeyRelatedFieldAutoOptimizer`,
which differ only in `get_field_name`): when the model class has the resolved
attribute and it is a related (to-one) object, add `prefix + field_name` to
the select set, or to the prefetch set when `to_prefetch` holds; in every
other case contribute nothing.  Returns `(select_related_set,
prefetch_related_set)`. -/
def simpleRelationOptimize (fieldName pfx : String) (mc : ModelClass)
    (toPrefetch : Bool) : Finset String × Finset String :=
  match getattrModel mc fieldName with
  | none => (∅, ∅)
  | some mf =>
    if check_if_related_object mf then
      if toPrefetch then (∅, {pfx ++ fieldName}) else ({pfx ++ fieldName}, ∅)
    else (∅, ∅)

mutual

/-- Source: `BaseOptimizer.get_optimizer(field, field_name)` followed by the returned
optimizer's `optimize(field, prefix, model_class, to_prefetch)`; `.ok (∅, ∅)`
also covers `get_optimizer` returning `None`, in which case the caller skips
the field (contributing nothing).  The child filters are narrowed with
`filter_field_name` exactly as in `get_optimizer`; the leaf optimizers receive
but never use them.  Dispatch order matches the source: the dotted-source
test comes first, then exact-type matches, then `isinstance` matches. -/
def optimizeField (only inc : Option (List String)) (name : String)
    (sf : Sfield) (pfx : String) (mc : ModelClass) (toPrefetch : Bool) :
    Except Unit (Finset String × Finset String) :=
  if hasDot sf.sourceOf then
    .ok (simpleRelationOptimize (firstSegment sf.sourceOf) pfx mc toPrefetch)
  else
    match sf with
    | .methodField fn _ =>
      .ok (simpleRelationOptimize fn pfx mc toPrefetch)
    | .pkRelated fn _ =>
      .ok (simpleRelationOptimize fn pfx mc toPrefetch)
    | .asymetric _ src target =>
      manyRelationOptimize (filter_field_name name only)
        (filter_field_name name inc) target src pfx mc toPrefetch
    | .listSerializer src child =>
      manyRelationOptimize (filter_field_name name only)
        (filter_field_name name inc) child src pfx mc toPrefetch
    | .nestedSerializer src ser =>
      manyRelationOptimize (filter_field_name name only)
        (filter_field_name name inc) ser src pfx mc toPrefetch
    | .manyRelated src childSer =>
      manyRelationOptimize (filter_field_name name only)
        (filter_field_name name inc) childSer src pfx mc toPrefetch
    | .manyRelatedNoSer _ => .ok (∅, ∅)
    | .plainField _ _ => .ok (∅, ∅)
termination_by sizeOf sf
decreasing_by all_goals (simp_wf; try omega)

/-- Source: `ManyRelationAutoOptimizer.optimize` after `get_serializer` has resolved
the nested serializer `ser` (the `serializer is None` early return is handled
at the dispatch site, constructor `manyRelatedNoSer`).  In source order:
return empty sets when `getattr(model_class, field.source, None)` is `None`,
when the nested serializer has no `Meta` or no `Meta.model`, or when
`check_in_fields` fails; otherwise add `prefix + field.source` to the select
set (related object, `to_prefetch` false) or to the prefetch set (setting
`to_prefetch`), extend the prefix with `field.source + "__"`, and recurse
over the nested serializer's eligible fields, unioning the results. -/
def manyRelationOptimize (only inc : Option (List String)) (ser : Serializer)
    (source pfx : String) (mc : ModelClass) (toPrefetch : Bool) :
    Except Unit (Finset String × Finset String) :=
  match getattrModel mc source with
  | none => .ok (∅, ∅)
  | some mf =>
    match ser with
    | .mk none _ _ _ => .ok (∅, ∅)
    | .mk (some none) _ _ _ => .ok (∅, ∅)
    | .mk (some (some childMc)) fs odFn cn =>
      if ! check_in_fields mc mf then .ok (∅, ∅)
      else
        let toOne := check_if_related_object mf && ! toPrefetch
        let ownSelect : Finset String := if toOne then {pfx ++ source} else ∅
        let ownPrefetch : Finset String := if toOne then ∅ else {pfx ++ source}
        let tp := if toOne then toPrefetch else true
        let pfx2 := pfx ++ source ++ "__"
        let od := odFn.getD []
        match optimizeNestedFields only inc cn od fs pfx2 childMc tp with
        | .error e => .error e
        | .ok r => .ok (ownSelect ∪ r.1, ownPrefetch ∪ r.2)
termination_by sizeOf ser
decreasing_by all_goals (simp_wf; try omega)

/-- The loop of `ManyRelationAutoOptimizer.optimize` over
`fields_to_optimize`: for each field yielded by `get_field_to_handle` (the
`fieldDecision` tests, exceptions propagating) that both exists on the nested
model class (`getattr(model_class, field_name, False)`) and passes the
repeated needs-serialization check, dispatch via `get_optimizer` and recurse,
unioning the select and prefetch contributions. -/
def optimizeNestedFields (only inc : Option (List String))
    (cn : Option NeedsOracle) (od : List String) (fs : FieldList)
    (pfx : String) (mc : ModelClass) (toPrefetch : Bool) :
    Except Unit (Finset String × Finset String) :=
  match fs with
  | .nil => .ok (∅, ∅)
  | .cons n f rest =>
    match fieldDecision only inc cn od n f with
    | .raiseTypeError => .error ()
    | .skip => optimizeNestedFields only inc cn od rest pfx mc toPrefetch
    | .keep =>
      if (getattrModel mc n).isSome
          && check_if_needs_serialization only inc cn n od then
        match optimizeField only inc n f pfx mc toPrefetch with
        | .error e => .error e
        | .ok r1 =>
          match optimizeNestedFields only inc cn od rest pfx mc toPrefetch with
          | .error e => .error e
          | .ok r2 => .ok (r1.1 ∪ r2.1, r1.2 ∪ r2.2)
      else optimizeNestedFields only inc cn od rest pfx mc toPrefetch
termination_by sizeOf fs
decreasing_by all_goals (simp_wf; try omega)

end

/-- Source: `check_if_prefetch_object` as invoked inside `Optimizer.optimize`: there
the argument is the DRF serializer *field* object (not a Django model
attribute), and no rest_framework field class subclasses
`related_descriptors.ManyToManyDescriptor` or
`related_descriptors.ReverseManyToOneDescriptor`, so both `isinstance` tests
are false for every serializer field. -/
def check_if_prefetch_object_on_field (_f : Sfield) : Bool :=
  false

/-- The initial `to_prefetch` value computed by `Optimizer.optimize` for each
yielded field: `force_prefetch or self.check_if_prefetch_object(field)`. -/
def initialToPrefetch (forcePrefetch : Bool) (f : Sfield) : Bool :=
  forcePrefetch || check_if_prefetch_object_on_field f

/-- The loop of `Optimizer.optimize` over `fields_to_optimize`: for each field
yielded by `get_field_to_handle` (exceptions propagating), dispatch via
`get_optimizer` with `to_prefetch = force_prefetch or
check_if_prefetch_object(field)` and union the results. -/
def optimizeRootFields (only inc : Option (List String))
    (cn : Option NeedsOracle) (od : List String) (fs : FieldList)
    (pfx : String) (mc : ModelClass) (forcePrefetch : Bool) :
    Except Unit (Finset String × Finset String) :=
  match fs with
  | .nil => .ok (∅, ∅)
  | .cons n f rest =>
    match fieldDecision only inc cn od n f with
    | .raiseTypeError => .error ()
    | .skip => optimizeRootFields only inc cn od rest pfx mc forcePrefetch
    | .keep =>
      match optimizeField only inc n f pfx mc
          (initialToPrefetch forcePrefetch f) with
      | .error e => .error e
      | .ok r1 =>
        match optimizeRootFields only inc cn od rest pfx mc forcePrefetch with
        | .error e => .error e
        | .ok r2 => .ok (r1.1 ∪ r2.1, r1.2 ∪ r2.2)

/-- The entry-point class `Optimizer(only_fields, include_fields)`; the two
constructor arguments are the state captured by `BaseOptimizer.__init__`. -/
structure Optimizer : Type where
  only_fields : Option (List String)
  include_fields : Option (List String)

/-- Source: `Optimizer.optimize(serializer, prefix, force_prefetch)`: empty sets when
the serializer has no `Meta` or no `Meta.model`; otherwise walk the root
serializer's eligible fields.  Returns `(select_related_set,
prefetch_related_set)`, or `.error ()` when iteration raises. -/
def Optimizer.optimize (o : Optimizer) (ser : Serializer) (pfx : String)
    (forcePrefetch : Bool) : Except Unit (Finset String × Finset String) :=
  match ser.meta with
  | none => .ok (∅, ∅)
  | some none => .ok (∅, ∅)
  | some (some mc) =>
    optimizeRootFields o.only_fields o.include_fields ser.checkNeeds
      (ser.onDemand.getD []) ser.sfields pfx mc forcePrefetch

/-- Source: `Optimizer.run(serializer, prefix, force_prefetch)`: call `optimize`, then
`select_fields = clean_fields(prefetch_fields, select_fields)`. -/
def Optimizer.run (o : Optimizer) (ser : Serializer) (pfx : String)
    (forcePrefetch : Bool) : Except Unit (Finset String × Finset String) :=
  match o.optimize ser pfx forcePrefetch with
  | .error e => .error e
  | .ok r => .ok (clean_fields r.2 r.1, r.2)

/-- State-passing form of `Optimizer.run`: the bodies of `run`, `optimize` and
every helper they call never assign to `self.only_fields` or
`self.include_fields` (the only attribute writes in the class hierarchy are in
`BaseOptimizer.__init__`), so the optimizer state after a call is the incoming
optimizer unchanged. -/
def Optimizer.runState (o : Optimizer) (ser : Serializer) (pfx : String)
    (forcePrefetch : Bool) :
    Except Unit (Finset String × Finset String) × Optimizer :=
  (o.run ser pfx forcePrefetch, o)

/-- The select-related component of an optimize result (empty when the call
raised). -/
def selectPart : Except Unit (Finset String × Finset String) → Finset String
  | .ok r => r.1
  | .error _ => ∅

/-- The prefetch-related component of an optimize result (empty when the call
raised). -/
def prefetchPart : Except Unit (Finset String × Finset String) → Finset String
  | .ok r => r.2
  | .error _ => ∅

/-- Concrete fixtures used by the witness theorems below. -/
def mcAuthor : ModelClass :=
  ⟨[("author", ⟨.forwardManyToOne, "author_rel"⟩)], ["author_rel"]⟩

def oracleTrue : NeedsOracle := fun _ _ _ _ => true

def serAuthor : Serializer :=
  .mk (some (some mcAuthor))
    (.cons "author" (.pkRelated "author" "author") .nil) none (some oracleTrue)

def mcProp : ModelClass :=
  ⟨[("prop", ⟨.propertyAttr, "prop_rel"⟩)], ["prop_rel"]⟩

def mcComments : ModelClass :=
  ⟨[("comments", ⟨.reverseManyToOne, "comments_rel"⟩)], ["comments_rel"]⟩

def asymFriendField : Sfield :=
  .asymetric "friend" "friend" (.mk none .nil none none)

def serAsym : Serializer :=
  .mk (some (some mcAuthor)) (.cons "friend" asymFriendField .nil) none
    (some oracleTrue)

/-- Every path in the result is the given path prefix followed by some
remainder. -/
def PrefixedResult (pfx : String)
    (res : Except Unit (Finset String × Finset String)) : Prop :=
  ∀ x, x ∈ selectPart res ∪ prefetchPart res → ∃ r, x = pfx ++ r

theorem simpleRelationOptimize_fst_true (fn pfx : String) (mc : ModelClass) :
    (simpleRelationOptimize fn pfx mc true).1 = ∅ := by
  unfold simpleRelationOptimize
  rcases getattrModel mc fn with _ | mf
  · rfl
  · simp only []
    split <;> rfl

mutual

theorem optimizeField_select_empty (only inc : Option (List String))
    (n : String) (sf : Sfield) (pfx : String) (mc : ModelClass) :
    selectPart (optimizeField only inc n sf pfx mc true) = ∅ := by
  cases sf with
  | methodField fn src =>
    rw [optimizeField.eq_def]
    split <;> simpa [selectPart] using simpleRelationOptimize_fst_true _ pfx mc
  | pkRelated fn src =>
    rw [optimizeField.eq_def]
    split <;> simpa [selectPart] using simpleRelationOptimize_fst_true _ pfx mc
  | asymetric fn src target =>
    rw [optimizeField.eq_def]
    split
    · simpa [selectPart] using simpleRelationOptimize_fst_true _ pfx mc
    · exact manyRelationOptimize_select_empty _ _ target src pfx mc
  | listSerializer src child =>
    rw [optimizeField.eq_def]
    split
    · simpa [selectPart] using simpleRelationOptimize_fst_true _ pfx mc
    · exact manyRelationOptimize_select_empty _ _ child src pfx mc
  | nestedSerializer src ser =>
    rw [optimizeField.eq_def]
    split
    · simpa [selectPart] using simpleRelationOptimize_fst_true _ pfx mc
    · exact manyRelationOptimize_select_empty _ _ ser src pfx mc
  | manyRelated src childSer =>
    rw [optimizeField.eq_def]
    split
    · simpa [selectPart] using simpleRelationOptimize_fst_true _ pfx mc
    · exact manyRelationOptimize_select_empty _ _ childSer src pfx mc
  | manyRelatedNoSer src =>
    rw [optimizeField.eq_def]
    split <;> simp [selectPart, simpleRelationOptimize_fst_true]
  | plainField fn src =>
    rw [optimizeField.eq_def]
    split <;> simp [selectPart, simpleRelationOptimize_fst_true]
termination_by sizeOf sf
decreasing_by all_goals (simp_wf; try omega)

theorem manyRelationOptimize_select_empty (only inc : Option (List String))
    (ser : Serializer) (source pfx : String) (mc : ModelClass) :
    selectPart (manyRelationOptimize only inc ser source pfx mc true) = ∅ := by
  rcases ser with ⟨_ | _ | childMc, fs, odFn, cn⟩
  · rw [manyRelationOptimize.eq_def]
    split <;> rfl
  · rw [manyRelationOptimize.eq_def]
    split <;> rfl
  · rw [manyRelationOptimize.eq_def]
    split
    · rfl
    · rename_i mf _
      simp only [Bool.not_true, Bool.and_false, Bool.false_eq_true, if_false]
      split
      · rfl
      · have h := optimizeNestedFields_select_empty only inc cn (odFn.getD [])
          fs (pfx ++ source ++ "__") childMc
        split
        · simp [selectPart]
        · rename_i r heq
          rw [heq] at h
          simp only [selectPart] at h
          simp [selectPart, h]
termination_by sizeOf ser
decreasing_by all_goals (simp_wf; try omega)

theorem optimizeNestedFields_select_empty (only inc : Option (List String))
    (cn : Option NeedsOracle) (od : List String) (fs : FieldList)
    (pfx : String) (mc : ModelClass) :
    selectPart (optimizeNestedFields only inc cn od fs pfx mc true) = ∅ := by
  cases fs with
  | nil => rw [optimizeNestedFields.eq_def]; rfl
  | cons n f rest =>
    rw [optimizeNestedFields.eq_def]
    simp only []
    split
    · rfl
    · exact optimizeNestedFields_select_empty only inc cn od rest pfx mc
    · split
      · have h1 := optimizeField_select_empty only inc n f pfx mc
        have h2 := optimizeNestedFields_select_empty only inc cn od rest pfx mc
        split
        · simp [selectPart]
        · rename_i r1 heq1
          rw [heq1] at h1
          simp only [selectPart] at h1
          split
          · simp [selectPart]
          · rename_i r2 heq2
            rw [heq2] at h2
            simp only [selectPart] at h2
            simp [selectPart, h1, h2]
      · exact optimizeNestedFields_select_empty only inc cn od rest pfx mc
termination_by sizeOf fs
decreasing_by all_goals (simp_wf; try omega)

end

theorem prefixedResult_empty (pfx : String) :
    PrefixedResult pfx (.ok (∅, ∅)) := by
  intro x hx
  simp [selectPart, prefetchPart] at hx

theorem prefixedResult_error (pfx : String) (e : Unit) :
    PrefixedResult pfx (.error e) := by
  intro x hx
  simp [selectPart, prefetchPart] at hx

theorem simpleRelationOptimize_prefixed (fn pfx : String) (mc : ModelClass)
    (tp : Bool) :
    PrefixedResult pfx (.ok (simpleRelationOptimize fn pfx mc tp)) := by
  unfold simpleRelationOptimize
  split
  · exact prefixedResult_empty pfx
  · split
    · split
      · intro x hx
        simp [selectPart, prefetchPart] at hx
        exact ⟨fn, hx⟩
      · intro x hx
        simp [selectPart, prefetchPart] at hx
        exact ⟨fn, hx⟩
    · exact prefixedResult_empty pfx

mutual

theorem optimizeField_prefixed (only inc : Option (List String)) (n : String)
    (sf : Sfield) (pfx : String) (mc : ModelClass) (tp : Bool) :
    PrefixedResult pfx (optimizeField only inc n sf pfx mc tp) := by
  cases sf with
  | methodField fn src =>
    rw [optimizeField.eq_def]
    split <;> exact simpleRelationOptimize_prefixed _ pfx mc tp
  | pkRelated fn src =>
    rw [optimizeField.eq_def]
    split <;> exact simpleRelationOptimize_prefixed _ pfx mc tp
  | asymetric fn src target =>
    rw [optimizeField.eq_def]
    split
    · exact simpleRelationOptimize_prefixed _ pfx mc tp
    · exact manyRelationOptimize_prefixed _ _ target src pfx mc tp
  | listSerializer src child =>
    rw [optimizeField.eq_def]
    split
    · exact simpleRelationOptimize_prefixed _ pfx mc tp
    · exact manyRelationOptimize_prefixed _ _ child src pfx mc tp
  | nestedSerializer src ser =>
    rw [optimizeField.eq_def]
    split
    · exact simpleRelationOptimize_prefixed _ pfx mc tp
    · exact manyRelationOptimize_prefixed _ _ ser src pfx mc tp
  | manyRelated src childSer =>
    rw [optimizeField.eq_def]
    split
    · exact simpleRelationOptimize_prefixed _ pfx mc tp
    · exact manyRelationOptimize_prefixed _ _ childSer src pfx mc tp
  | manyRelatedNoSer src =>
    rw [optimizeField.eq_def]
    split
    · exact simpleRelationOptimize_prefixed _ pfx mc tp
    · exact prefixedResult_empty pfx
  | plainField fn src =>
    rw [optimizeField.eq_def]
    split
    · exact simpleRelationOptimize_prefixed _ pfx mc tp
    · exact prefixedResult_empty pfx
termination_by sizeOf sf
decreasing_by all_goals (simp_wf; try omega)

theorem manyRelationOptimize_prefixed (only inc : Option (List String))
    (ser : Serializer) (source pfx : String) (mc : ModelClass) (tp : Bool) :
    PrefixedResult pfx (manyRelationOptimize only inc ser source pfx mc tp) := by
  rcases ser with ⟨_ | _ | childMc, fs, odFn, cn⟩
  · rw [manyRelationOptimize.eq_def]
    split
    · exact prefixedResult_empty pfx
    · exact prefixedResult_empty pfx
  · rw [manyRelationOptimize.eq_def]
    split
    · exact prefixedResult_empty pfx
    · exact prefixedResult_empty pfx
  · rw [manyRelationOptimize.eq_def]
    split
    · exact prefixedResult_empty pfx
    · rename_i mf _
      simp only []
      split
      · exact prefixedResult_empty pfx
      · have h := optimizeNestedFields_prefixed only inc cn (odFn.getD [])
          fs (pfx ++ source ++ "__") childMc
          (if (check_if_related_object mf && !tp) = true then tp else true)
        split
        · exact prefixedResult_error pfx _
        · rename_i r heq
          rw [heq] at h
          intro x hx
          simp only [selectPart, prefetchPart, Finset.mem_union] at hx
          rcases hx with (hx | hx) | (hx | hx)
          · split at hx
            · exact ⟨source, by simpa using Finset.mem_singleton.mp hx⟩
            · simp at hx
          · rcases h x (by simp [selectPart, prefetchPart]; exact Or.inl hx)
              with ⟨r2, hr2⟩
            exact ⟨source ++ ("__" ++ r2),
              by rw [hr2, String.append_assoc, String.append_assoc]⟩
          · split at hx
            · simp at hx
            · exact ⟨source, by simpa using Finset.mem_singleton.mp hx⟩
          · rcases h x (by simp [selectPart, prefetchPart]; exact Or.inr hx)
              with ⟨r2, hr2⟩
            exact ⟨source ++ ("__" ++ r2),
              by rw [hr2, String.append_assoc, String.append_assoc]⟩
termination_by sizeOf ser
decreasing_by all_goals (simp_wf; try omega)

theorem optimizeNestedFields_prefixed (only inc : Option (List String))
    (cn : Option NeedsOracle) (od : List String) (fs : FieldList)
    (pfx : String) (mc : ModelClass) (tp : Bool) :
    PrefixedResult pfx (optimizeNestedFields only inc cn od fs pfx mc tp) := by
  cases fs with
  | nil =>
    rw [optimizeNestedFields.eq_def]
    exact prefixedResult_empty pfx
  | cons n f rest =>
    rw [optimizeNestedFields.eq_def]
    simp only []
    split
    · exact prefixedResult_error pfx _
    · exact optimizeNestedFields_prefixed only inc cn od rest pfx mc tp
    · split
      · have h1 := optimizeField_prefixed only inc n f pfx mc tp
        have h2 := optimizeNestedFields_prefixed only inc cn od rest pfx mc tp
        split
        · exact prefixedResult_error pfx _
        · rename_i r1 heq1
          rw [heq1] at h1
          split
          · exact prefixedResult_error pfx _
          · rename_i r2 heq2
            rw [heq2] at h2
            intro x hx
            simp only [selectPart, prefetchPart, Finset.mem_union] at hx
            rcases hx with (hx | hx) | (hx | hx)
            · exact h1 x (by simp [selectPart, prefetchPart]; exact Or.inl hx)
            · exact h2 x (by simp [selectPart, prefetchPart]; exact Or.inl hx)
            · exact h1 x (by simp [selectPart, prefetchPart]; exact Or.inr hx)
            · exact h2 x (by simp [selectPart, prefetchPart]; exact Or.inr hx)
      · exact optimizeNestedFields_prefixed only inc cn od rest pfx mc tp
termination_by sizeOf fs
decreasing_by all_goals (simp_wf; try omega)

end

theorem optimizeRootFields_prefixed (only inc : Option (List String))
    (cn : Option NeedsOracle) (od : List String) (fs : FieldList)
    (pfx : String) (mc : ModelClass) (fp : Bool) :
    PrefixedResult pfx (optimizeRootFields only inc cn od fs pfx mc fp) := by
  cases fs with
  | nil =>
    rw [optimizeRootFields.eq_def]
    exact prefixedResult_empty pfx
  | cons n f rest =>
    have ih := optimizeRootFields_prefixed only inc cn od rest pfx mc fp
    rw [optimizeRootFields.eq_def]
    simp only []
    split
    · exact prefixedResult_error pfx _
    · exact ih
    · have h1 := optimizeField_prefixed only inc n f pfx mc
        (initialToPrefetch fp f)
      split
      · exact prefixedResult_error pfx _
      · rename_i r1 heq1
        rw [heq1] at h1
        split
        · exact prefixedResult_error pfx _
        · rename_i r2 heq2
          rw [heq2] at ih
          intro x hx
          simp only [selectPart, prefetchPart, Finset.mem_union] at hx
          rcases hx with (hx | hx) | (hx | hx)
          · exact h1 x (by simp [selectPart, prefetchPart]; exact Or.inl hx)
          · exact ih x (by simp [selectPart, prefetchPart]; exact Or.inl hx)
          · exact h1 x (by simp [selectPart, prefetchPart]; exact Or.inr hx)
          · exact ih x (by simp [selectPart, prefetchPart]; exact Or.inr hx)
termination_by sizeOf fs
decreasing_by all_goals (simp_wf; try omega)

theorem optimizerOptimize_prefixed (o : Optimizer) (ser : Serializer)
    (pfx : String) (fp : Bool) :
    PrefixedResult pfx (o.optimize ser pfx fp) := by
  rw [Optimizer.optimize]
  split
  · exact prefixedResult_empty pfx
  · exact prefixedResult_empty pfx
  · exact optimizeRootFields_prefixed _ _ _ _ _ pfx _ fp

theorem str_empty_append (s : String) : "" ++ s = s := by
  cases s
  rfl

theorem manyRelationOptimize_select_empty_of_prefetch
    (only inc : Option (List String)) (ser : Serializer) (source pfx : String)
    (mc : ModelClass) (tp : Bool) (mf : ModelField)
    (h1 : getattrModel mc source = some mf)
    (h2 : check_if_prefetch_object mf = true) :
    selectPart (manyRelationOptimize only inc ser source pfx mc tp) = ∅ := by
  have h3 : check_if_related_object mf = false := by
    rcases mf with ⟨k, r⟩
    cases k <;> simp_all [check_if_prefetch_object, check_if_related_object]
  rcases ser with ⟨_ | _ | childMc, fs, odFn, cn⟩
  · rw [manyRelationOptimize.eq_def]
    simp [h1, selectPart]
  · rw [manyRelationOptimize.eq_def]
    simp [h1, selectPart]
  · rw [manyRelationOptimize.eq_def]
    simp only [h1]
    split
    · rfl
    · simp only [h3, Bool.false_and, Bool.false_eq_true, if_false]
      have h := optimizeNestedFields_select_empty only inc cn (odFn.getD [])
        fs (pfx ++ source ++ "__") childMc
      split
      · simp [selectPart]
      · rename_i r heq
        rw [heq] at h
        simp only [selectPart] at h
        simp [selectPart, h]

/-- C5: once `to_prefetch` is true when a path segment is processed (the flag
arrived true, or the segment's model attribute is classified to-many), the
segment and every descendant path produced under it goes to the prefetch
(batch) set and never to the select (join) set: such calls return an empty
select-related set. -/
theorem C5_batch_escalation_monotonic :
    (∀ (only inc : Option (List String)) (n : String) (sf : Sfield)
        (pfx : String) (mc : ModelClass),
        selectPart (optimizeField only inc n sf pfx mc true) = ∅) ∧
    (∀ (only inc : Option (List String)) (ser : Serializer)
        (source pfx : String) (mc : ModelClass),
        selectPart (manyRelationOptimize only inc ser source pfx mc true)
          = ∅) ∧
    (∀ (only inc : Option (List String)) (ser : Serializer)
        (source pfx : String) (mc : ModelClass) (tp : Bool)
        (mf : ModelField),
        getattrModel mc source = some mf →
        check_if_prefetch_object mf = true →
        selectPart (manyRelationOptimize only inc ser source pfx mc tp) = ∅) :=
  ⟨fun only inc n sf pfx mc => optimizeField_select_empty only inc n sf pfx mc,
   fun only inc ser source pfx mc =>
     manyRelationOptimize_select_empty only inc ser source pfx mc,
   fun only inc ser source pfx mc tp mf h1 h2 =>
     manyRelationOptimize_select_empty_of_prefetch only inc ser source pfx mc
       tp mf h1 h2⟩

/-- Witness for C5 at concrete inputs. -/
theorem C5_batch_escalation_monotonic_witness :
    selectPart (optimizeField none none "author"
      (.pkRelated "author" "author") "" mcAuthor true) = ∅ ∧
    selectPart (manyRelationOptimize none none serAuthor "comments" ""
      (ModelClass.mk [("comments",
        ⟨DescriptorKind.reverseManyToOne, "comments_rel"⟩)] ["comments_rel"])
      false) = ∅ :=
  ⟨C5_batch_escalation_monotonic.1 none none "author"
    (.pkRelated "author" "author") "" mcAuthor,
   C5_batch_escalation_monotonic.2.2 none none serAuthor "comments" ""
    (ModelClass.mk [("comments",
      ⟨DescriptorKind.reverseManyToOne, "comments_rel"⟩)] ["comments_rel"])
    false ⟨DescriptorKind.reverseManyToOne, "comments_rel"⟩ (by decide)
    (by decide)⟩

/-- C10: every string placed in either result set by an optimize operation
(leaf or recursive dispatch, nested recursion, or the root orchestrator)
begins with the prefix argument that operation received. -/
theorem C10_paths_carry_pfx :
    (∀ (only inc : Option (List String)) (n : String) (sf : Sfield)
        (pfx : String) (mc : ModelClass) (tp : Bool) (x : String),
        x ∈ selectPart (optimizeField only inc n sf pfx mc tp) ∪
            prefetchPart (optimizeField only inc n sf pfx mc tp) →
        ∃ r, x = pfx ++ r) ∧
    (∀ (only inc : Option (List String)) (ser : Serializer)
        (source pfx : String) (mc : ModelClass) (tp : Bool) (x : String),
        x ∈ selectPart (manyRelationOptimize only inc ser source pfx mc tp) ∪
            prefetchPart (manyRelationOptimize only inc ser source pfx mc tp) →
        ∃ r, x = pfx ++ r) ∧
    (∀ (o : Optimizer) (ser : Serializer) (pfx : String) (fp : Bool)
        (x : String),
        x ∈ selectPart (o.optimize ser pfx fp) ∪
            prefetchPart (o.optimize ser pfx fp) →
        ∃ r, x = pfx ++ r) :=
  ⟨fun only inc n sf pfx mc tp => optimizeField_prefixed only inc n sf pfx mc tp,
   fun only inc ser source pfx mc tp =>
     manyRelationOptimize_prefixed only inc ser source pfx mc tp,
   fun o ser pfx fp => optimizerOptimize_prefixed o ser pfx fp⟩

/-- Witness for C10 at a concrete input. -/
theorem C10_paths_carry_pfx_witness :
    ∃ r, "the__author" = "the__" ++ r :=
  C10_paths_carry_pfx.1 none none "author" (.pkRelated "author" "author")
    "the__" mcAuthor false "the__author"
    (by simp +decide [optimizeField, simpleRelationOptimize, getattrModel,
      mcAuthor, hasDot, Sfield.sourceOf, firstSegment, selectPart,
      prefetchPart, check_if_related_object])

/-- C3: the pair returned by `Optimizer.run` is disjoint, because the
post-processing step computes `clean_fields(prefetch_set, select_set) =
select_set - prefetch_set`; in particular
`clean_fields({p1,p2},{p2,p3}) = {p3}`. -/
theorem C3_run_sets_disjoint :
    (∀ (o : Optimizer) (ser : Serializer) (pfx : String) (fp : Bool)
        (j b : Finset String),
        o.run ser pfx fp = .ok (j, b) → Disjoint j b) ∧
    clean_fields {"p1", "p2"} {"p2", "p3"} = {"p3"} := by
  constructor
  · intro o ser pfx fp j b h
    rw [Optimizer.run] at h
    split at h
    · cases h
    · rename_i r _
      injection h with h
      injection h with h1 h2
      rw [← h1, ← h2, clean_fields]
      exact disjoint_sdiff_self_left
  · decide

/-- Witness for C3 at a concrete input. -/
theorem C3_run_sets_disjoint_witness :
    Disjoint (∅ : Finset String) (∅ : Finset String) ∧
    clean_fields {"p1", "p2"} {"p2", "p3"} = {"p3"} :=
  ⟨C3_run_sets_disjoint.1 ⟨none, none⟩ (.mk none .nil none none) "" false ∅ ∅
    (by simp [Optimizer.run, Optimizer.optimize, Serializer.meta,
      clean_fields]),
   C3_run_sets_disjoint.2⟩

/-- C9: `Optimizer.run` is deterministic and idempotent: optimizers with equal
captured filters return identical results for the same arguments, repeated
calls agree, and a call leaves the optimizer's captured filter state
unchanged. -/
theorem C9_run_deterministic_stateless :
    (∀ (o o2 : Optimizer) (ser : Serializer) (pfx : String) (fp : Bool),
        o.only_fields = o2.only_fields →
        o.include_fields = o2.include_fields →
        o.run ser pfx fp = o2.run ser pfx fp) ∧
    (∀ (o : Optimizer) (ser : Serializer) (pfx : String) (fp : Bool),
        o.run ser pfx fp = o.run ser pfx fp ∧
        o.runState ser pfx fp = (o.run ser pfx fp, o)) := by
  constructor
  · rintro ⟨a, b⟩ ⟨c, d⟩ ser pfx fp h1 h2
    simp only [] at h1 h2
    subst h1
    subst h2
    rfl
  · intro o ser pfx fp
    exact ⟨rfl, rfl⟩

/-- Witness for C9 at a concrete input. -/
theorem C9_run_deterministic_stateless_witness :
    Optimizer.run ⟨some [], some []⟩ serAuthor "" false =
      Optimizer.run ⟨some [], some []⟩ serAuthor "" false ∧
    Optimizer.runState ⟨some [], some []⟩ serAuthor "" false =
      (Optimizer.run ⟨some [], some []⟩ serAuthor "" false,
        (⟨some [], some []⟩ : Optimizer)) :=
  ⟨C9_run_deterministic_stateless.1 ⟨some [], some []⟩ ⟨some [], some []⟩
      serAuthor "" false rfl rfl,
   (C9_run_deterministic_stateless.2 ⟨some [], some []⟩ serAuthor "" false).2⟩

/-- C6: missing schema metadata never raises and contributes nothing: a root
serializer without `Meta` or without `Meta.model`, a `ManyRelatedField`
without a nested serializer class, an absent model attribute, a nested
serializer without record-type metadata, and an attribute that is not a
declared relationship all yield two empty sets. -/
theorem C6_schema_incompleteness_safe :
    (∀ (o : Optimizer) (ser : Serializer) (pfx : String) (fp : Bool),
        (ser.meta = none ∨ ser.meta = some none) →
        o.optimize ser pfx fp = .ok (∅, ∅)) ∧
    (∀ (only inc : Option (List String)) (n src pfx : String)
        (mc : ModelClass) (tp : Bool),
        hasDot src = false →
        optimizeField only inc n (.manyRelatedNoSer src) pfx mc tp
          = .ok (∅, ∅)) ∧
    (∀ (only inc : Option (List String)) (ser : Serializer)
        (src pfx : String) (mc : ModelClass) (tp : Bool),
        getattrModel mc src = none →
        manyRelationOptimize only inc ser src pfx mc tp = .ok (∅, ∅)) ∧
    (∀ (only inc : Option (List String)) (ser : Serializer)
        (src pfx : String) (mc : ModelClass) (tp : Bool),
        (ser.meta = none ∨ ser.meta = some none) →
        manyRelationOptimize only inc ser src pfx mc tp = .ok (∅, ∅)) ∧
    (∀ (only inc : Option (List String)) (ser : Serializer)
        (src pfx : String) (mc : ModelClass) (tp : Bool) (mf : ModelField),
        getattrModel mc src = some mf → check_in_fields mc mf = false →
        manyRelationOptimize only inc ser src pfx mc tp = .ok (∅, ∅)) := by
  refine ⟨?_, ?_, ?_, ?_, ?_⟩
  · intro o ser pfx fp h
    rcases h with h | h <;> simp [Optimizer.optimize, h]
  · intro only inc n src pfx mc tp h
    rw [optimizeField.eq_def]
    simp [Sfield.sourceOf, h]
  · intro only inc ser src pfx mc tp h
    rw [manyRelationOptimize.eq_def]
    simp [h]
  · intro only inc ser src pfx mc tp h
    rcases ser with ⟨m, fs, odf, cn⟩
    simp only [Serializer.meta] at h
    rw [manyRelationOptimize.eq_def]
    rcases h with h | h <;> subst h <;> cases getattrModel mc src <;> simp
  · intro only inc ser src pfx mc tp mf h1 h2
    rcases ser with ⟨_ | _ | childMc, fs, odf, cn⟩ <;>
      rw [manyRelationOptimize.eq_def] <;> simp [h1, h2]

/-- Witness for C6 at concrete inputs. -/
theorem C6_schema_incompleteness_safe_witness :
    Optimizer.optimize ⟨none, none⟩ (.mk none .nil none none) "" false
      = .ok (∅, ∅) ∧
    optimizeField none none "x" (.manyRelatedNoSer "x") "" mcAuthor false
      = .ok (∅, ∅) ∧
    manyRelationOptimize none none serAuthor "missing" "" mcAuthor false
      = .ok (∅, ∅) ∧
    manyRelationOptimize none none (.mk none .nil none none) "author" ""
      mcAuthor false = .ok (∅, ∅) ∧
    manyRelationOptimize none none serAuthor "prop" "" mcProp false
      = .ok (∅, ∅) :=
  ⟨C6_schema_incompleteness_safe.1 ⟨none, none⟩ (.mk none .nil none none)
      "" false (Or.inl rfl),
   C6_schema_incompleteness_safe.2.1 none none "x" "x" "" mcAuthor false
      (by decide),
   C6_schema_incompleteness_safe.2.2.1 none none serAuthor "missing" ""
      mcAuthor false (by decide),
   C6_schema_incompleteness_safe.2.2.2.1 none none (.mk none .nil none none)
      "author" "" mcAuthor false (Or.inl rfl),
   C6_schema_incompleteness_safe.2.2.2.2 none none serAuthor "prop" "" mcProp
      false ⟨.propertyAttr, "prop_rel"⟩ (by decide) (by decide)⟩

/-- C8: `filter_field_name(name, None)` is `None`, and on a non-`None`
collection it returns the collection of entries whose first `__`-separated
path segment equals the field name, with that segment and its separator
stripped. -/
theorem C8_filter_field_name_spec :
    (∀ (n : String), filter_field_name n none = none) ∧
    (∀ (n : String) (l : List String),
        filter_field_name n (some l) = some (filter_fields n l)) ∧
    (∀ (n : String) (l : List String) (x : String),
        x ∈ filter_fields n l ↔
          ∃ e ∈ l, ∃ rest, e.splitOn "__" = n :: rest ∧
            x = String.intercalate "__" rest) := by
  refine ⟨fun n => rfl, fun n l => rfl, fun n l x => ?_⟩
  simp only [filter_fields, List.mem_filterMap]
  constructor
  · rintro ⟨e, he, hfe⟩
    refine ⟨e, he, ?_⟩
    rcases hsp : e.splitOn "__" with _ | ⟨seg, rest⟩
    · rw [hsp] at hfe
      cases hfe
    · rw [hsp] at hfe
      have hfe2 : (if seg = n then some (String.intercalate "__" rest)
          else none) = some x := hfe
      by_cases hseg : seg = n
      · subst hseg
        rw [if_pos rfl] at hfe2
        injection hfe2 with hfe2
        exact ⟨rest, rfl, hfe2.symm⟩
      · rw [if_neg hseg] at hfe2
        cases hfe2
  · rintro ⟨e, he, rest, hsp, hx⟩
    refine ⟨e, he, ?_⟩
    rw [hsp]
    show (if n = n then some (String.intercalate "__" rest) else none) = some x
    rw [if_pos rfl, hx]

/-- Witness for C8 at concrete inputs. -/
theorem C8_filter_field_name_spec_witness :
    filter_field_name "a" none = none ∧
    ("b" ∈ filter_fields "a" ["a__b", "c"] ↔
      ∃ e ∈ ["a__b", "c"], ∃ rest, e.splitOn "__" = "a" :: rest ∧
        "b" = String.intercalate "__" rest) :=
  ⟨C8_filter_field_name_spec.1 "a",
   C8_filter_field_name_spec.2.2 "a" ["a__b", "c"] "b"⟩

/-- C1: for a root serializer with `Meta.model` whose only (eligible) field is
a plain to-one relation field `author`, `run` with empty path prefix and
`force_prefetch = false` returns `({"author"}, ∅)`, and with
`force_prefetch = true` returns `(∅, {"author"})`. -/
theorem C1_author_end_to_end (o : Optimizer) (mc : ModelClass)
    (mf : ModelField) (g : NeedsOracle)
    (h1 : getattrModel mc "author" = some mf)
    (h2 : check_if_related_object mf = true)
    (h3 : g "author" o.only_fields o.include_fields [] = true) :
    o.run (.mk (some (some mc))
        (.cons "author" (.pkRelated "author" "author") .nil) none (some g))
      "" false = .ok ({"author"}, ∅) ∧
    o.run (.mk (some (some mc))
        (.cons "author" (.pkRelated "author" "author") .nil) none (some g))
      "" true = .ok (∅, {"author"}) := by
  constructor <;>
    simp +decide [Optimizer.run, Optimizer.optimize, optimizeRootFields,
      optimizeField, fieldDecision, check_if_needs_serialization,
      isRelatedFieldClass, isAsymetric, hasDot, Sfield.sourceOf,
      simpleRelationOptimize, h1, h2, h3, initialToPrefetch,
      check_if_prefetch_object_on_field, Serializer.meta, Serializer.sfields,
      Serializer.onDemand, Serializer.checkNeeds, clean_fields,
      str_empty_append]

/-- Witness for C1 at concrete inputs. -/
theorem C1_author_end_to_end_witness :
    Optimizer.run ⟨none, none⟩ serAuthor "" false = .ok ({"author"}, ∅) ∧
    Optimizer.run ⟨none, none⟩ serAuthor "" true = .ok (∅, {"author"}) :=
  C1_author_end_to_end ⟨none, none⟩ mcAuthor
    ⟨.forwardManyToOne, "author_rel"⟩ oracleTrue (by decide) (by decide) rfl

/-- C2 counterexample: a method-computed leaf field `comments` whose resolved
model attribute is a reverse many-to-one (to-many) descriptor contributes
nothing at all — in particular the batch set does not receive `comments`,
whichever value `to_batch` has. -/
theorem C2_leaf_to_many_counterexample :
    check_if_prefetch_object ⟨.reverseManyToOne, "comments_rel"⟩ = true ∧
    optimizeField none none "comments" (.methodField "comments" "comments")
      "" mcComments true = .ok (∅, ∅) ∧
    optimizeField none none "comments" (.methodField "comments" "comments")
      "" mcComments false = .ok (∅, ∅) ∧
    "comments" ∉ prefetchPart (optimizeField none none "comments"
      (.methodField "comments" "comments") "" mcComments true) := by
  refine ⟨by decide, ?_, ?_, ?_⟩ <;>
    simp +decide [optimizeField, simpleRelationOptimize, hasDot,
      Sfield.sourceOf, check_if_related_object, getattrModel, mcComments,
      prefetchPart]

theorem simpleRelationOptimize_to_many_empty (fn pfx : String)
    (mc : ModelClass) (tp : Bool) (mf : ModelField)
    (h1 : getattrModel mc fn = some mf)
    (h2 : check_if_prefetch_object mf = true) :
    simpleRelationOptimize fn pfx mc tp = (∅, ∅) := by
  unfold simpleRelationOptimize
  rw [h1]
  have h3 : check_if_related_object mf = false := by
    rcases mf with ⟨k, r⟩
    cases k <;> simp_all [check_if_prefetch_object, check_if_related_object]
  simp [h3]

/-- C2 amended: for every leaf relation field — dotted-source (any field kind
whose source contains a dot), method-computed, or plain relation kind — whose
resolved attribute on the record type is classified to-many, the leaf
optimize adds nothing: it returns two empty sets regardless of the `to_batch`
argument (so in particular `prefix + name` is not added to the batch set). -/
theorem C2_leaf_to_many_amended :
    (∀ (only inc : Option (List String)) (n : String) (sf : Sfield)
        (pfx : String) (mc : ModelClass) (tp : Bool) (mf : ModelField),
        hasDot sf.sourceOf = true →
        getattrModel mc (firstSegment sf.sourceOf) = some mf →
        check_if_prefetch_object mf = true →
        optimizeField only inc n sf pfx mc tp = .ok (∅, ∅)) ∧
    (∀ (only inc : Option (List String)) (n fn src pfx : String)
        (mc : ModelClass) (tp : Bool) (mf : ModelField),
        hasDot src = false →
        getattrModel mc fn = some mf →
        check_if_prefetch_object mf = true →
        optimizeField only inc n (.methodField fn src) pfx mc tp
          = .ok (∅, ∅)) ∧
    (∀ (only inc : Option (List String)) (n fn src pfx : String)
        (mc : ModelClass) (tp : Bool) (mf : ModelField),
        hasDot src = false →
        getattrModel mc fn = some mf →
        check_if_prefetch_object mf = true →
        optimizeField only inc n (.pkRelated fn src) pfx mc tp
          = .ok (∅, ∅)) ∧
    (∀ (fn pfx : String) (mc : ModelClass) (tp : Bool) (mf : ModelField),
        getattrModel mc fn = some mf →
        check_if_prefetch_object mf = true →
        simpleRelationOptimize fn pfx mc tp = (∅, ∅)) := by
  refine ⟨?_, ?_, ?_, ?_⟩
  · intro only inc n sf pfx mc tp mf h0 h1 h2
    rw [optimizeField.eq_def]
    simp only [h0, if_true]
    rw [simpleRelationOptimize_to_many_empty _ pfx mc tp mf h1 h2]
  · intro only inc n fn src pfx mc tp mf h0 h1 h2
    rw [optimizeField.eq_def]
    simp only [Sfield.sourceOf, h0, Bool.false_eq_true, if_false]
    rw [simpleRelationOptimize_to_many_empty fn pfx mc tp mf h1 h2]
  · intro only inc n fn src pfx mc tp mf h0 h1 h2
    rw [optimizeField.eq_def]
    simp only [Sfield.sourceOf, h0, Bool.false_eq_true, if_false]
    rw [simpleRelationOptimize_to_many_empty fn pfx mc tp mf h1 h2]
  · intro fn pfx mc tp mf h1 h2
    exact simpleRelationOptimize_to_many_empty fn pfx mc tp mf h1 h2

/-- Witness for the amended C2 at concrete inputs: a dotted-source field over
a to-many first segment, and the shared leaf routine on a to-many attribute. -/
theorem C2_leaf_to_many_amended_witness :
    optimizeField none none "comments_id"
      (.plainField "comments_id" "comments.id") "" mcComments false
      = .ok (∅, ∅) ∧
    simpleRelationOptimize "comments" "" mcComments true = (∅, ∅) :=
  ⟨C2_leaf_to_many_amended.1 none none "comments_id"
    (.plainField "comments_id" "comments.id") "" mcComments false
    ⟨.reverseManyToOne, "comments_rel"⟩ (by decide) (by decide) (by decide),
   C2_leaf_to_many_amended.2.2.2 "comments" "" mcComments true
    ⟨.reverseManyToOne, "comments_rel"⟩ (by decide) (by decide)⟩

/-- C4: the initial `to_batch` computed by `Optimizer.optimize` is
`force_prefetch or check_if_prefetch_object(field)`, but the argument passed
there is the DRF serializer field object, which is never an instance of a
Django related descriptor class, so the structural to-many detection never
fires: the initial value equals `force_prefetch` for every field — in
particular it is `false` for a `ManyRelatedField` named `comments` even
though the claim requires `true` there. -/
theorem C4_initial_to_batch_is_force_prefetch :
    (∀ (fp : Bool) (f : Sfield), initialToPrefetch fp f = fp) ∧
    initialToPrefetch false
      (.manyRelated "comments" (.mk none .nil none none)) = false := by
  constructor
  · intro fp f
    simp [initialToPrefetch, check_if_prefetch_object_on_field]
  · rfl

/-- C7 counterexample: with `include_fields = None` and an asymmetric relation
field that passes the needs-serialization check, `get_field_to_handle` raises
`TypeError` (the membership test `field_name not in None`) instead of
skipping the field and terminating normally. -/
theorem C7_asymmetric_skip_counterexample :
    get_field_to_handle none none serAsym [] = .error () := by
  simp +decide [get_field_to_handle, handleFields, fieldDecision,
    check_if_needs_serialization, isRelatedFieldClass, isAsymetric, hasDot,
    Sfield.sourceOf, serAsym, asymFriendField, Serializer.checkNeeds,
    Serializer.sfields, oracleTrue]

theorem fieldDecision_some_ne_raise (only : Option (List String))
    (incl : List String) (cn : Option NeedsOracle) (od : List String)
    (n : String) (f : Sfield) :
    fieldDecision only (some incl) cn od n f ≠ .raiseTypeError := by
  unfold fieldDecision
  repeat' split
  all_goals simp_all

theorem fieldDecision_keep_asym (only : Option (List String))
    (incl : List String) (cn : Option NeedsOracle) (od : List String)
    (n : String) (f : Sfield)
    (hk : fieldDecision only (some incl) cn od n f = .keep)
    (ha : isAsymetric f = true) : n ∈ incl := by
  unfold fieldDecision at hk
  repeat' split at hk
  all_goals simp_all

theorem handleFields_some_spec (only : Option (List String))
    (incl : List String) (cn : Option NeedsOracle) (od : List String)
    (fs : FieldList) :
    ∃ l, handleFields only (some incl) cn od fs = .ok l ∧
      ∀ p ∈ l, isAsymetric p.2 = true → p.1 ∈ incl := by
  cases fs with
  | nil => exact ⟨[], rfl, by simp⟩
  | cons n f rest =>
    rcases handleFields_some_spec only incl cn od rest with ⟨l, hl, hall⟩
    rcases hd : fieldDecision only (some incl) cn od n f with _ | _ | _
    · refine ⟨l, ?_, hall⟩
      rw [handleFields.eq_def]
      simp only [hd]
      exact hl
    · refine ⟨(n, f) :: l, ?_, ?_⟩
      · rw [handleFields.eq_def]
        simp only [hd, hl]
      · intro p hp hasym
        rcases List.mem_cons.mp hp with heq | hp2
        · subst heq
          exact fieldDecision_keep_asym only incl cn od n f hd hasym
        · exact hall p hp2 hasym
    · exact absurd hd (fieldDecision_some_ne_raise only incl cn od n f)
termination_by sizeOf fs
decreasing_by all_goals (simp_wf; try omega)

/-- C7 amended: when `include_fields` is a set (not `None`), field enumeration
never raises and an asymmetric relation field is yielded only when its name
is in `include_fields`; with `include_fields = None` the enumeration raises
`TypeError` as soon as an asymmetric field passes the needs-serialization
check (see the counterexample). -/
theorem C7_asymmetric_skip_amended :
    (∀ (only : Option (List String)) (incl : List String) (ser : Serializer)
        (od : List String),
        ∃ l, get_field_to_handle only (some incl) ser od = .ok l) ∧
    (∀ (only : Option (List String)) (incl : List String) (ser : Serializer)
        (od : List String) (l : List (String × Sfield)) (n : String)
        (f : Sfield),
        get_field_to_handle only (some incl) ser od = .ok l →
        (n, f) ∈ l → isAsymetric f = true → n ∈ incl) :=
  ⟨fun only incl ser od =>
     (handleFields_some_spec only incl ser.checkNeeds od ser.sfields).elim
       (fun l hl => ⟨l, hl.1⟩),
   fun only incl ser od l n f hok hmem ha => by
     rcases handleFields_some_spec only incl ser.checkNeeds od ser.sfields
       with ⟨l2, hl2, hall⟩
     unfold get_field_to_handle at hok
     rw [hok] at hl2
     injection hl2 with hl2
     subst hl2
     exact hall (n, f) hmem ha⟩

/-- Witness for the amended C7 at concrete inputs. -/
theorem C7_asymmetric_skip_amended_witness :
    "friend" ∈ ["friend"] :=
  C7_asymmetric_skip_amended.2 none ["friend"] serAsym []
    [("friend", asymFriendField)] "friend" asymFriendField
    (by simp +decide [get_field_to_handle, handleFields, fieldDecision,
      check_if_needs_serialization, isRelatedFieldClass, isAsymetric, hasDot,
      Sfield.sourceOf, serAsym, asymFriendField, Serializer.checkNeeds,
      Serializer.sfields, oracleTrue])
    (List.mem_singleton.mpr rfl) rfl
